import Mathlib

/-!
Verification development for the bskypost command-line tool
(single source file bskypost.py).

The tool scans post text for mentions and URLs with two byte-level
regular expressions, converts matches into byte-offset facet spans,
resolves mention handles through a lookup collaborator, and builds the
image-embed list with a size check and alt-text pairing.

The embedding below models the Python code faithfully:

* Text is a Lean String; the code works on text.encode("UTF-8"), which
  we model as a list of byte values (Nat below 256) via utf8Encode.
* The two regular expressions are embedded as explicit backtracking
  pattern functions: a pattern maps a byte list and a start position to
  the list of candidate end positions in the engine's preference order
  (greedy quantifiers produce longer candidates first, sequencing is
  depth-first).  The first candidate of the whole pattern is the match
  the Python re engine reports, and re.finditer is modelled by scanGo,
  which advances past each match exactly as the engine does.
* Fallible Python code (raising requests/json/TypeError exceptions) is
  modelled with Except / Option results.
-/

namespace Bskypost

/-! ## Byte classes

Byte-level character classes of the two regular expressions.  In a
Python bytes pattern, word characters are exactly [a-zA-Z0-9_]. -/

def isDigitB (b : Nat) : Bool := 48 ≤ b && b ≤ 57

def isAlphaB (b : Nat) : Bool := (65 ≤ b && b ≤ 90) || (97 ≤ b && b ≤ 122)

def isAlnumB (b : Nat) : Bool := isAlphaB b || isDigitB b

def isWordByte (b : Nat) : Bool := isAlnumB b || b == 95

/-- The leading class of both regexes, written [$|\W] in the source: a
dollar sign (36), a pipe (124), or any non-word byte.  Note this is a
character class, not an anchor alternative: it always consumes one byte. -/
def boundaryByte (b : Nat) : Bool := b == 36 || b == 124 || !(isWordByte b)

/-- Class [a-zA-Z0-9-]. -/
def alnumHyphenB (b : Nat) : Bool := isAlnumB b || b == 45

/-- Host class of the URL regex: [-a-zA-Z0-9@:%._\+~#=] -/
def hostB (b : Nat) : Bool :=
  isAlnumB b || b == 45 || b == 64 || b == 58 || b == 37 || b == 46 ||
    b == 95 || b == 43 || b == 126 || b == 35 || b == 61

/-- TLD class of the URL regex: [a-zA-Z0-9()] -/
def tldB (b : Nat) : Bool := isAlnumB b || b == 40 || b == 41

/-- Tail class of the URL regex: [-a-zA-Z0-9()@:%_\+.~#?&//=] -/
def tailB (b : Nat) : Bool :=
  isAlnumB b || b == 45 || b == 40 || b == 41 || b == 64 || b == 58 ||
    b == 37 || b == 95 || b == 43 || b == 46 || b == 126 || b == 35 ||
    b == 63 || b == 38 || b == 47 || b == 61

/-- Final-byte class of the URL tail: [-a-zA-Z0-9@%_\+~#//=]
(no dot, colon, parentheses, question mark or ampersand). -/
def finalB (b : Nat) : Bool :=
  isAlnumB b || b == 45 || b == 64 || b == 37 || b == 95 || b == 43 ||
    b == 126 || b == 35 || b == 47 || b == 61

/-- Bytes that can occur inside group 1 of the mention regex:
the sigil, alphanumerics, hyphen and dot.  All are ASCII. -/
def mentionGroupB (b : Nat) : Bool :=
  b == 64 || isAlnumB b || b == 45 || b == 46

/-! ## UTF-8 encoding and decoding

Models str.encode("UTF-8") and bytes.decode("UTF-8") of Python. -/

def utf8EncodeChar (c : Char) : List Nat :=
  let n := c.toNat
  if n < 128 then [n]
  else if n < 2048 then [192 + n / 64, 128 + n % 64]
  else if n < 65536 then [224 + n / 4096, 128 + n / 64 % 64, 128 + n % 64]
  else [240 + n / 262144, 128 + n / 4096 % 64, 128 + n / 64 % 64, 128 + n % 64]

def utf8Encode (s : List Char) : List Nat := (s.map utf8EncodeChar).flatten

/-- Byte list of the UTF-8 encoding of a text, i.e. text.encode("UTF-8"). -/
def textBytes (text : String) : List Nat := utf8Encode text.data

def isCont (b : Nat) : Bool := 128 ≤ b && b < 192

/-- Decode one UTF-8 sequence: first byte and remaining bytes in, code
point and rest out.  Rejects stray continuation bytes, truncated
sequences, overlong encodings, surrogates and out-of-range code points,
as Python's strict bytes.decode("UTF-8") does. -/
def utf8DecodeOne (b : Nat) (rest : List Nat) : Option (Nat × List Nat) :=
  if b < 128 then some (b, rest)
  else if b < 192 then none
  else if b < 224 then
    match rest with
    | b1 :: rest1 =>
      if isCont b1 then
        if 128 ≤ (b - 192) * 64 + (b1 - 128) then
          some ((b - 192) * 64 + (b1 - 128), rest1)
        else none
      else none
    | [] => none
  else if b < 240 then
    match rest with
    | b1 :: b2 :: rest2 =>
      if isCont b1 && isCont b2 then
        if 2048 ≤ (b - 224) * 4096 + (b1 - 128) * 64 + (b2 - 128) &&
            !(55296 ≤ (b - 224) * 4096 + (b1 - 128) * 64 + (b2 - 128) &&
              (b - 224) * 4096 + (b1 - 128) * 64 + (b2 - 128) < 57344) then
          some ((b - 224) * 4096 + (b1 - 128) * 64 + (b2 - 128), rest2)
        else none
      else none
    | _ => none
  else if b < 248 then
    match rest with
    | b1 :: b2 :: b3 :: rest3 =>
      if isCont b1 && isCont b2 && isCont b3 then
        if 65536 ≤ (b - 240) * 262144 + (b1 - 128) * 4096 + (b2 - 128) * 64 + (b3 - 128) &&
            (b - 240) * 262144 + (b1 - 128) * 4096 + (b2 - 128) * 64 + (b3 - 128) < 1114112 then
          some ((b - 240) * 262144 + (b1 - 128) * 4096 + (b2 - 128) * 64 + (b3 - 128), rest3)
        else none
      else none
    | _ => none
  else none

/-- Fueled decoding loop.  Every decoded character consumes at least
one byte, so fuel equal to the byte count (as utf8Decode passes) never
runs out before the list does. -/
def utf8DecodeGo : Nat → List Nat → Option (List Char)
  | _, [] => some []
  | 0, _ :: _ => none
  | fuel + 1, b :: rest =>
    match utf8DecodeOne b rest with
    | none => none
    | some (cp, rest2) =>
      match utf8DecodeGo fuel rest2 with
      | some cs => some (Char.ofNat cp :: cs)
      | none => none

/-- bytes.decode("UTF-8") of Python (strict). -/
def utf8Decode (bs : List Nat) : Option (List Char) := utf8DecodeGo bs.length bs

/-- bytes[s:e] of Python (for the in-range slices the scanners produce). -/
def byteSlice (bs : List Nat) (s e : Nat) : List Nat := (bs.drop s).take (e - s)

/-- bytes.decode("UTF-8") where the caller guarantees validity; the
scanners only ever decode pure-ASCII slices, for which utf8Decode is
proven to succeed (mention_slice_decodes below). -/
def decodeOr (bs : List Nat) : String :=
  match utf8Decode bs with
  | some cs => String.mk cs
  | none => ""

/-! ## Backtracking pattern embedding

A pattern maps the subject byte list and a start position to the list
of candidate end positions, in the preference order of Python's
backtracking engine: a match attempt succeeds with the FIRST candidate
of the full pattern, and backtracking is exactly traversal of this
list.  Greedy quantifiers yield longer candidates first. -/

def Pat : Type := List Nat → Nat → List Nat

/-- Single byte from a class. -/
def clsCands (P : Nat → Bool) : Pat := fun bs p =>
  match bs[p]? with
  | some b => if P b then [p + 1] else []
  | none => []

/-- Empty pattern. -/
def epsCands : Pat := fun _ p => [p]

/-- Sequencing: depth-first over the candidates of the first part. -/
def seqCands (f g : Pat) : Pat := fun bs p => (f bs p).flatMap (g bs)

/-- Greedy option (r)? : try r first, then the empty match. -/
def optCands (f : Pat) : Pat := fun bs p => f bs p ++ [p]

/-- Greedy bounded repetition r{0,n} : more iterations preferred. -/
def repMaxCands (f : Pat) : Nat → Pat
  | 0 => fun _ p => [p]
  | n + 1 => fun bs p => (f bs p).flatMap (fun q => repMaxCands f n bs q) ++ [p]

/-- Greedy unbounded r+ with fuel (the subject length suffices because
every iteration of the bodies used here consumes at least one byte). -/
def plusGo (f : Pat) (bs : List Nat) : Nat → Nat → List Nat
  | 0, _ => []
  | fuel + 1, p => (f bs p).flatMap (fun q => plusGo f bs fuel q ++ [q])

def plusCands (f : Pat) : Pat := fun bs p => plusGo f bs (bs.length + 1) p

/-- Greedy unbounded r* with fuel. -/
def starGo (f : Pat) (bs : List Nat) : Nat → Nat → List Nat
  | 0, _ => []
  | fuel + 1, p => (f bs p).flatMap (fun q => starGo f bs fuel q) ++ [p]

def starCands (f : Pat) : Pat := fun bs p => starGo f bs (bs.length + 1) p

/-- Literal byte sequence as nested single-byte classes. -/
def litCands : List Nat → Pat
  | [] => epsCands
  | b :: rest => seqCands (clsCands (fun x => x == b)) (litCands rest)

/-- Word character at index i of the subject (out of range counts as
non-word), for the \b assertion. -/
def wordAt (bs : List Nat) (i : Nat) : Bool :=
  match bs[i]? with
  | some b => isWordByte b
  | none => false

/-- Zero-width word-boundary assertion \b. -/
def bndCands : Pat := fun bs p =>
  if (if p = 0 then false else wordAt bs (p - 1)) != wordAt bs p then [p] else []

/-! ## The mention pattern

Source regex (bskypost.py line 60):
[$|\W](@([a-zA-Z0-9]([a-zA-Z0-9-]{0,61}[a-zA-Z0-9])?\.)+[a-zA-Z]([a-zA-Z0-9-]{0,61}[a-zA-Z0-9])?)
The group-1 pattern below is everything after the leading class. -/

/-- Label pattern [a-zA-Z0-9]([a-zA-Z0-9-]{0,61}[a-zA-Z0-9])?. -/
def labelPat : Pat :=
  seqCands (clsCands isAlnumB)
    (optCands (seqCands (repMaxCands (clsCands alnumHyphenB) 61) (clsCands isAlnumB)))

/-- Pattern ([a-zA-Z0-9]([a-zA-Z0-9-]{0,61}[a-zA-Z0-9])?\.). -/
def labelDotPat : Pat := seqCands labelPat (clsCands (fun b => b == 46))

/-- TLD pattern [a-zA-Z]([a-zA-Z0-9-]{0,61}[a-zA-Z0-9])?. -/
def tldPat : Pat :=
  seqCands (clsCands isAlphaB)
    (optCands (seqCands (repMaxCands (clsCands alnumHyphenB) 61) (clsCands isAlnumB)))

/-- Pattern (label\.)+tld, the part of mention group 1 after the sigil. -/
def mentionAfterAt : Pat := seqCands (plusCands labelDotPat) tldPat

/-- Group 1 of the mention regex: @(label\.)+tld. -/
def mentionG1 : Pat := seqCands (clsCands (fun b => b == 64)) mentionAfterAt

/-! ## The URL pattern

Source regex (bskypost.py line 75):
[$|\W](https?:\/\/(www\.)?[-a-zA-Z0-9@:%._\+~#=]{1,256}\.[a-zA-Z0-9()]{1,6}\b([-a-zA-Z0-9()@:%_\+.~#?&//=]*[-a-zA-Z0-9@%_\+~#//=])?) -/

/-- Host repetition [-a-zA-Z0-9@:%._\+~#=]{1,256}. -/
def hostPat : Pat := seqCands (clsCands hostB) (repMaxCands (clsCands hostB) 255)

/-- TLD repetition [a-zA-Z0-9()]{1,6}. -/
def tldRepPat : Pat := seqCands (clsCands tldB) (repMaxCands (clsCands tldB) 5)

/-- Tail pattern ([-a-zA-Z0-9()@:%_\+.~#?&//=]*[-a-zA-Z0-9@%_\+~#//=]). -/
def tailPat : Pat := seqCands (starCands (clsCands tailB)) (clsCands finalB)

/-- Pattern s?:\/\/(www\.)?host{1,256}\.tld{1,6}\b(tail)?, the part of URL
group 1 after the http literal. -/
def urlAfterHttp : Pat :=
  seqCands (optCands (litCands [115]))
    (seqCands (litCands [58, 47, 47])
      (seqCands (optCands (litCands [119, 119, 119, 46]))
        (seqCands hostPat
          (seqCands (litCands [46])
            (seqCands tldRepPat (seqCands bndCands (optCands tailPat)))))))

/-- Group 1 of the URL regex. -/
def urlG1 : Pat := seqCands (litCands [104, 116, 116, 112]) urlAfterHttp

/-! ## Scanning (re.finditer)

Both regexes have the shape [$|\W](group1): a match attempt at
position pos consumes one boundary-class byte and then group 1, whose
first candidate end is the reported match end.  finditer scans
positions left to right and resumes after each match's end. -/

def scanGo (g1 : Pat) (bs : List Nat) : Nat → Nat → List (Nat × Nat)
  | 0, _ => []
  | fuel + 1, pos =>
    match bs[pos]? with
    | none => []
    | some b =>
      if boundaryByte b then
        match (g1 bs (pos + 1)).head? with
        | some e => (pos + 1, e) :: scanGo g1 bs fuel e
        | none => scanGo g1 bs fuel (pos + 1)
      else scanGo g1 bs fuel (pos + 1)

/-- All (group-1 start, group-1 end) spans re.finditer reports. -/
def scanMatches (g1 : Pat) (bs : List Nat) : List (Nat × Nat) :=
  scanGo g1 bs (bs.length + 1) 0

/-! ## parse_mentions and parse_urls -/

structure MentionSpan where
  start : Nat
  stop : Nat
  handle : String
deriving DecidableEq, Repr

structure UrlSpan where
  start : Nat
  stop : Nat
  url : String
deriving DecidableEq, Repr

/-- parse_mentions (bskypost.py lines 57-68): spans are m.start(1) and
m.end(1), the handle is m.group(1)[1:].decode("UTF-8") - the slice
from start+1 (past the sigil byte) to end. -/
def parse_mentions (text : String) : List MentionSpan :=
  (scanMatches mentionG1 (textBytes text)).map fun se =>
    { start := se.1, stop := se.2,
      handle := decodeOr (byteSlice (textBytes text) (se.1 + 1) se.2) }

/-- parse_urls (bskypost.py lines 71-83): spans are m.start(1) and
m.end(1), the url is m.group(1).decode("UTF-8"). -/
def parse_urls (text : String) : List UrlSpan :=
  (scanMatches urlG1 (textBytes text)).map fun se =>
    { start := se.1, stop := se.2,
      url := decodeOr (byteSlice (textBytes text) se.1 se.2) }

/-! ## parse_facets (bskypost.py lines 88-121)

The handle-resolution collaborator (requests.get on
com.atproto.identity.resolveHandle) is a parameter: it returns either a
transport failure (the requests call raising) or an HTTP response,
modelled by its status code and the optional "did" field of its JSON
body.  The code skips a mention on status 400, and otherwise evaluates
resp.json()["did"], which raises when the body has no such field. -/

structure Response where
  status : Nat
  didField : Option String
deriving DecidableEq, Repr

/-- Failures that escape parse_facets: the requests call raising
(transport), or resp.json()["did"] raising on a body without a did. -/
inductive FacetError where
  | transport (msg : String)
  | noDid
deriving DecidableEq, Repr

inductive Feature where
  | mention (did : String)
  | link (uri : String)
deriving DecidableEq, Repr

structure Facet where
  byteStart : Nat
  byteEnd : Nat
  features : List Feature
deriving DecidableEq, Repr

def mentionFacet (m : MentionSpan) (did : String) : Facet :=
  { byteStart := m.start, byteEnd := m.stop, features := [Feature.mention did] }

def linkFacet (u : UrlSpan) : Facet :=
  { byteStart := u.start, byteEnd := u.stop, features := [Feature.link u.url] }

/-- The mention loop of parse_facets, with the accumulated facets list
(the code appends to the facets variable in place). -/
def resolveLoop (resolve : String → Except String Response) :
    List MentionSpan → List Facet → Except FacetError (List Facet)
  | [], acc => Except.ok acc
  | m :: rest, acc =>
    match resolve m.handle with
    | Except.error e => Except.error (FacetError.transport e)
    | Except.ok resp =>
      if resp.status == 400 then resolveLoop resolve rest acc
      else
        match resp.didField with
        | none => Except.error FacetError.noDid
        | some did => resolveLoop resolve rest (acc ++ [mentionFacet m did])

/-- parse_facets: the mention loop first (any failure propagates), then
the url loop, which appends a link facet unconditionally per UrlMatch. -/
def parse_facets (resolve : String → Except String Response) (text : String) :
    Except FacetError (List Facet) :=
  match resolveLoop resolve (parse_mentions text) [] with
  | Except.error e => Except.error e
  | Except.ok facets => Except.ok (facets ++ (parse_urls text).map linkFacet)

/-- The successfully resolved mention facets in scan order, written
without an accumulator; related to resolveLoop by
resolveLoop_eq_scanOrder below. -/
def mentionFacetsInScanOrder (resolve : String → Except String Response) :
    List MentionSpan → Except FacetError (List Facet)
  | [] => Except.ok []
  | m :: rest =>
    match resolve m.handle with
    | Except.error e => Except.error (FacetError.transport e)
    | Except.ok resp =>
      if resp.status == 400 then mentionFacetsInScanOrder resolve rest
      else
        match resp.didField with
        | none => Except.error FacetError.noDid
        | some did =>
          match mentionFacetsInScanOrder resolve rest with
          | Except.error e => Except.error e
          | Except.ok fs => Except.ok (mentionFacet m did :: fs)

/-- The resolution of a mention fails with a condition other than the
not-found / bad-request one: the requests call raises (transport or
server-level failure), or the response is not status 400 and its body
carries no did (so resp.json()["did"] raises). -/
def resolutionFails (resolve : String → Except String Response) (h : String) : Prop :=
  match resolve h with
  | Except.error _ => True
  | Except.ok resp => resp.status ≠ 400 ∧ resp.didField = none

/-! ## The image embed loop (bskypost.py lines 158-190)

Per image, in order: read the bytes (given here as a byte list), check
the 1,000,000-byte limit and raise on violation, call uploadBlob, and
append the embed entry with alt text
args.alt[idx] if len(args.alt) > idx else "".
With argparse action append and no default, args.alt is None when no
--alt flag was passed, and len(None) raises TypeError. -/

inductive PostError where
  | imageTooLarge (size : Nat)
  | typeErrorNoneLen
deriving DecidableEq, Repr

structure EmbedImage where
  alt : String
  image : Nat
deriving DecidableEq, Repr

/-- Outcome of the image loop: the embed entries appended, the payloads
for which uploadBlob was called (in call order), and the exception
terminating the loop, if any. -/
structure UploadResult where
  embeds : List EmbedImage
  uploaded : List (List Nat)
  error : Option PostError
deriving DecidableEq, Repr

/-- The expression args.alt[idx] if len(args.alt) > idx else "", with
args.alt either None (no --alt flag) or the list of --alt values. -/
def altForIdx : Option (List String) → Nat → Except PostError String
  | none, _ => Except.error PostError.typeErrorNoneLen
  | some alts, idx => Except.ok (if h : idx < alts.length then alts.get ⟨idx, h⟩ else "")

/-- The check at line 169: len(img_bytes) > 1000000. -/
def sizeLimitExceeded (n : Nat) : Bool := decide (1000000 < n)

def imageLoopGo (upload : List Nat → Nat) (altArgs : Option (List String)) :
    Nat → List (List Nat) → UploadResult
  | _, [] => { embeds := [], uploaded := [], error := none }
  | idx, img :: rest =>
    if sizeLimitExceeded img.length then
      { embeds := [], uploaded := [],
        error := some (PostError.imageTooLarge img.length) }
    else
      let blob := upload img
      match altForIdx altArgs idx with
      | Except.error e => { embeds := [], uploaded := [img], error := some e }
      | Except.ok alt =>
        let r := imageLoopGo upload altArgs (idx + 1) rest
        { embeds := { alt := alt, image := blob } :: r.embeds,
          uploaded := img :: r.uploaded, error := r.error }

def imageLoop (upload : List Nat → Nat) (altArgs : Option (List String))
    (imgs : List (List Nat)) : UploadResult :=
  imageLoopGo upload altArgs 0 imgs

/-! ## Concrete collaborators used in witnesses -/

/-- Resolver that reports every handle unresolvable (HTTP 400). -/
def always400 : String → Except String Response :=
  fun _ => Except.ok { status := 400, didField := none }

/-- Resolver that resolves every handle to a fixed did. -/
def allOk : String → Except String Response :=
  fun _ => Except.ok { status := 200, didField := some "did:plc:z" }

/-- Resolver whose underlying network call always fails. -/
def errResolver : String → Except String Response :=
  fun _ => Except.error "connection failed"

/-! ## Pattern soundness

Sound f S: from a start position inside the subject, every candidate
end position of the pattern f stays inside the subject, lies at or
after the start, and all consumed bytes satisfy S. -/

def Sound (f : Pat) (S : Nat → Bool) : Prop :=
  ∀ (bs : List Nat) (p : Nat), p ≤ bs.length → ∀ q ∈ f bs p,
    p ≤ q ∧ q ≤ bs.length ∧
      ∀ i (h : i < bs.length), p ≤ i → i < q → S bs[i] = true

def trueS : Nat → Bool := fun _ => true

/-! ### Soundness lemmas for the combinators -/

theorem clsCands_mem {P : Nat → Bool} {bs : List Nat} {p q : Nat} :
    q ∈ clsCands P bs p ↔ ∃ h : p < bs.length, P bs[p] = true ∧ q = p + 1 := by
  unfold clsCands
  cases hb : bs[p]? with
  | none =>
    have hlen : bs.length ≤ p := by
      by_contra hc
      push_neg at hc
      rw [List.getElem?_eq_getElem hc] at hb
      exact Option.noConfusion hb
    simp only [List.not_mem_nil, false_iff]
    rintro ⟨h, -, -⟩
    omega
  | some b =>
    have hlt : p < bs.length := by
      by_contra hc
      push_neg at hc
      rw [List.getElem?_eq_none hc] at hb
      exact Option.noConfusion hb
    have hbe : bs[p] = b := by
      rw [List.getElem?_eq_getElem hlt] at hb
      exact Option.some.inj hb
    by_cases hP : P b
    · simp [hP, hlt, hbe]
    · simp [hP, hbe]

theorem sound_cls {P S : Nat → Bool} (hPS : ∀ b, P b = true → S b = true) :
    Sound (clsCands P) S := by
  intro bs p hp q hq
  obtain ⟨h, hPb, rfl⟩ := clsCands_mem.mp hq
  refine ⟨Nat.le_succ p, h, ?_⟩
  intro i hi hpi hiq
  have : i = p := by omega
  subst this
  exact hPS _ hPb

theorem sound_eps {S : Nat → Bool} : Sound epsCands S := by
  intro bs p hp q hq
  simp only [epsCands, List.mem_singleton] at hq
  subst hq
  exact ⟨Nat.le_refl _, hp, fun i h hpi hiq => absurd hiq (by omega)⟩

theorem seqCands_mem {f g : Pat} {bs : List Nat} {p q : Nat} :
    q ∈ seqCands f g bs p ↔ ∃ m, m ∈ f bs p ∧ q ∈ g bs m := by
  simp [seqCands, List.mem_flatMap]

theorem sound_seq {f g : Pat} {S : Nat → Bool}
    (hf : Sound f S) (hg : Sound g S) : Sound (seqCands f g) S := by
  intro bs p hp q hq
  obtain ⟨m, hm, hqg⟩ := seqCands_mem.mp hq
  obtain ⟨hpm, hml, hcf⟩ := hf bs p hp m hm
  obtain ⟨hmq, hql, hcg⟩ := hg bs m hml q hqg
  refine ⟨Nat.le_trans hpm hmq, hql, ?_⟩
  intro i h hpi hiq
  by_cases him : i < m
  · exact hcf i h hpi him
  · exact hcg i h (by omega) hiq

theorem sound_opt {f : Pat} {S : Nat → Bool} (hf : Sound f S) :
    Sound (optCands f) S := by
  intro bs p hp q hq
  rcases List.mem_append.mp hq with hql | hqr
  · exact hf bs p hp q hql
  · have : q = p := List.mem_singleton.mp hqr
    subst this
    exact ⟨Nat.le_refl _, hp, fun i h hpi hiq => absurd hiq (by omega)⟩

theorem sound_repMax {f : Pat} {S : Nat → Bool} (hf : Sound f S) :
    ∀ n, Sound (repMaxCands f n) S := by
  intro n
  induction n with
  | zero =>
    intro bs p hp q hq
    simp only [repMaxCands, List.mem_singleton] at hq
    subst hq
    exact ⟨Nat.le_refl _, hp, fun i h hpi hiq => absurd hiq (by omega)⟩
  | succ n ih =>
    intro bs p hp q hq
    simp only [repMaxCands] at hq
    rcases List.mem_append.mp hq with hql | hqr
    · obtain ⟨m, hm, hqm⟩ := List.mem_flatMap.mp hql
      obtain ⟨hpm, hml, hcf⟩ := hf bs p hp m hm
      obtain ⟨hmq, hql2, hcg⟩ := ih bs m hml q hqm
      refine ⟨Nat.le_trans hpm hmq, hql2, ?_⟩
      intro i h hpi hiq
      by_cases him : i < m
      · exact hcf i h hpi him
      · exact hcg i h (by omega) hiq
    · have : q = p := List.mem_singleton.mp hqr
      subst this
      exact ⟨Nat.le_refl _, hp, fun i h hpi hiq => absurd hiq (by omega)⟩

theorem sound_plusGo {f : Pat} {S : Nat → Bool} (hf : Sound f S) :
    ∀ fuel (bs : List Nat) (p : Nat), p ≤ bs.length → ∀ q ∈ plusGo f bs fuel p,
      p ≤ q ∧ q ≤ bs.length ∧
        ∀ i (h : i < bs.length), p ≤ i → i < q → S bs[i] = true := by
  intro fuel
  induction fuel with
  | zero =>
    intro bs p hp q hq
    simp [plusGo] at hq
  | succ fuel ih =>
    intro bs p hp q hq
    simp only [plusGo] at hq
    obtain ⟨m, hm, hqm⟩ := List.mem_flatMap.mp hq
    obtain ⟨hpm, hml, hcf⟩ := hf bs p hp m hm
    rcases List.mem_append.mp hqm with hql | hqr
    · obtain ⟨hmq, hql2, hcg⟩ := ih bs m hml q hql
      refine ⟨Nat.le_trans hpm hmq, hql2, ?_⟩
      intro i h hpi hiq
      by_cases him : i < m
      · exact hcf i h hpi him
      · exact hcg i h (by omega) hiq
    · have : q = m := List.mem_singleton.mp hqr
      subst this
      exact ⟨hpm, hml, fun i h hpi hiq => hcf i h hpi hiq⟩

theorem sound_plus {f : Pat} {S : Nat → Bool} (hf : Sound f S) :
    Sound (plusCands f) S := by
  intro bs p hp q hq
  exact sound_plusGo hf _ bs p hp q hq

theorem sound_starGo {f : Pat} {S : Nat → Bool} (hf : Sound f S) :
    ∀ fuel (bs : List Nat) (p : Nat), p ≤ bs.length → ∀ q ∈ starGo f bs fuel p,
      p ≤ q ∧ q ≤ bs.length ∧
        ∀ i (h : i < bs.length), p ≤ i → i < q → S bs[i] = true := by
  intro fuel
  induction fuel with
  | zero =>
    intro bs p hp q hq
    simp [starGo] at hq
  | succ fuel ih =>
    intro bs p hp q hq
    simp only [starGo] at hq
    rcases List.mem_append.mp hq with hql | hqr
    · obtain ⟨m, hm, hqm⟩ := List.mem_flatMap.mp hql
      obtain ⟨hpm, hml, hcf⟩ := hf bs p hp m hm
      obtain ⟨hmq, hql2, hcg⟩ := ih bs m hml q hqm
      refine ⟨Nat.le_trans hpm hmq, hql2, ?_⟩
      intro i h hpi hiq
      by_cases him : i < m
      · exact hcf i h hpi him
      · exact hcg i h (by omega) hiq
    · have : q = p := List.mem_singleton.mp hqr
      subst this
      exact ⟨Nat.le_refl _, hp, fun i h hpi hiq => absurd hiq (by omega)⟩

theorem sound_star {f : Pat} {S : Nat → Bool} (hf : Sound f S) :
    Sound (starCands f) S := by
  intro bs p hp q hq
  exact sound_starGo hf _ bs p hp q hq

theorem sound_lit {S : Nat → Bool} :
    ∀ lit : List Nat, (∀ b ∈ lit, S b = true) → Sound (litCands lit) S := by
  intro lit
  induction lit with
  | nil => intro _; exact sound_eps
  | cons b rest ih =>
    intro hS
    apply sound_seq
    · apply sound_cls
      intro x hx
      have hxb : x = b := by simpa using hx
      subst hxb
      exact hS x (List.mem_cons_self x rest)
    · exact ih (fun x hx => hS x (List.mem_cons_of_mem _ hx))

theorem sound_bnd {S : Nat → Bool} : Sound bndCands S := by
  intro bs p hp q hq
  unfold bndCands at hq
  have hqp : q = p := by
    by_cases hB : ((if p = 0 then false else wordAt bs (p - 1)) != wordAt bs p) = true
    · rw [if_pos hB] at hq
      exact List.mem_singleton.mp hq
    · rw [if_neg hB] at hq
      exact absurd hq (List.not_mem_nil q)
  subst hqp
  exact ⟨Nat.le_refl _, hp, fun i h hpi hiq => absurd hiq (by omega)⟩

/-! ### Soundness of the two group-1 patterns -/

theorem mentionGroupB_of_alnum (b : Nat) (h : isAlnumB b = true) :
    mentionGroupB b = true := by
  simp [mentionGroupB, h]

theorem mentionGroupB_of_alnumHyphen (b : Nat) (h : alnumHyphenB b = true) :
    mentionGroupB b = true := by
  simp only [alnumHyphenB, Bool.or_eq_true] at h
  rcases h with h | h <;> simp [mentionGroupB, h]

theorem mentionGroupB_of_alpha (b : Nat) (h : isAlphaB b = true) :
    mentionGroupB b = true := by
  have : isAlnumB b = true := by simp [isAlnumB, h]
  exact mentionGroupB_of_alnum b this

theorem sound_label : Sound labelPat mentionGroupB :=
  sound_seq (sound_cls mentionGroupB_of_alnum)
    (sound_opt (sound_seq (sound_repMax (sound_cls mentionGroupB_of_alnumHyphen) 61)
      (sound_cls mentionGroupB_of_alnum)))

theorem sound_labelDot : Sound labelDotPat mentionGroupB :=
  sound_seq sound_label
    (sound_cls (fun b h => by
      have : b = 46 := by simpa using h
      subst this
      rfl))

theorem sound_tld : Sound tldPat mentionGroupB :=
  sound_seq (sound_cls mentionGroupB_of_alpha)
    (sound_opt (sound_seq (sound_repMax (sound_cls mentionGroupB_of_alnumHyphen) 61)
      (sound_cls mentionGroupB_of_alnum)))

theorem sound_mentionAfterAt : Sound mentionAfterAt mentionGroupB :=
  sound_seq (sound_plus sound_labelDot) sound_tld

theorem sound_mentionG1 : Sound mentionG1 mentionGroupB :=
  sound_seq
    (sound_cls (fun b h => by
      have : b = 64 := by simpa using h
      subst this
      rfl))
    sound_mentionAfterAt

theorem sound_urlAfterHttp : Sound urlAfterHttp trueS :=
  sound_seq (sound_opt (sound_lit _ (fun _ _ => rfl)))
    (sound_seq (sound_lit _ (fun _ _ => rfl))
      (sound_seq (sound_opt (sound_lit _ (fun _ _ => rfl)))
        (sound_seq (sound_seq (sound_cls (fun _ _ => rfl))
            (sound_repMax (sound_cls (fun _ _ => rfl)) 255))
          (sound_seq (sound_lit _ (fun _ _ => rfl))
            (sound_seq (sound_seq (sound_cls (fun _ _ => rfl))
                (sound_repMax (sound_cls (fun _ _ => rfl)) 5))
              (sound_seq sound_bnd
                (sound_opt (sound_seq (sound_star (sound_cls (fun _ _ => rfl)))
                  (sound_cls (fun _ _ => rfl))))))))))

theorem sound_urlG1 : Sound urlG1 trueS :=
  sound_seq (sound_lit _ (fun _ _ => rfl)) sound_urlAfterHttp

/-- A candidate of mention group 1 sits behind a literal sigil byte and
consumes it. -/
theorem mentionG1_mem {bs : List Nat} {p q : Nat}
    (hq : q ∈ mentionG1 bs p) :
    ∃ h : p < bs.length, bs[p] = 64 ∧ p + 1 ≤ q := by
  obtain ⟨m, hm, hrest⟩ := seqCands_mem.mp hq
  obtain ⟨hlt, hPb, rfl⟩ := clsCands_mem.mp hm
  have h64 : bs[p] = 64 := by simpa using hPb
  obtain ⟨hmq, -, -⟩ := sound_mentionAfterAt bs (p + 1) (by omega) q hrest
  exact ⟨hlt, h64, hmq⟩

/-- A candidate of URL group 1 consumes at least the first literal byte. -/
theorem urlG1_strict {bs : List Nat} {p q : Nat}
    (hq : q ∈ urlG1 bs p) : p + 1 ≤ q := by
  obtain ⟨m, hm, hrest⟩ := seqCands_mem.mp hq
  have hm2 : m ∈ seqCands (clsCands (fun x => x == 104)) (litCands [116, 116, 112]) bs p := hm
  obtain ⟨m2, hm3, hm4⟩ := seqCands_mem.mp hm2
  obtain ⟨hlt, -, rfl⟩ := clsCands_mem.mp hm3
  obtain ⟨hle1, hlen1, -⟩ :=
    sound_lit (S := trueS) [116, 116, 112] (fun _ _ => rfl) bs (p + 1) (by omega) m hm4
  obtain ⟨hle2, -, -⟩ := sound_urlAfterHttp bs m hlen1 q hrest
  omega

/-! ### Scanner soundness -/

theorem head?_mem {α : Type} {l : List α} {a : α} (h : l.head? = some a) : a ∈ l := by
  cases l with
  | nil => exact Option.noConfusion h
  | cons x xs =>
    have : x = a := by simpa [List.head?] using h
    subst this
    exact List.mem_cons_self x xs

/-- Every span the scanner reports starts right after a boundary-class
byte, and its end is a candidate of the group-1 pattern at its start. -/
theorem scanGo_mem {g1 : Pat} {bs : List Nat} :
    ∀ fuel pos s e, (s, e) ∈ scanGo g1 bs fuel pos →
      ∃ h : s - 1 < bs.length,
        1 ≤ s ∧ boundaryByte bs[s - 1] = true ∧ e ∈ g1 bs s := by
  intro fuel
  induction fuel with
  | zero =>
    intro pos s e h
    simp [scanGo] at h
  | succ fuel ih =>
    intro pos s e hmem
    simp only [scanGo] at hmem
    cases hb : bs[pos]? with
    | none => rw [hb] at hmem; exact absurd hmem (List.not_mem_nil _)
    | some b =>
      rw [hb] at hmem
      dsimp only at hmem
      obtain ⟨hlt, hbe⟩ := List.getElem?_eq_some_iff.mp hb
      by_cases hbd : boundaryByte b = true
      · rw [if_pos hbd] at hmem
        cases hh : (g1 bs (pos + 1)).head? with
        | none => rw [hh] at hmem; exact ih _ _ _ hmem
        | some e2 =>
          rw [hh] at hmem
          rcases List.mem_cons.mp hmem with heq | hrec
          · rw [Prod.mk.injEq] at heq
            obtain ⟨rfl, rfl⟩ := heq
            refine ⟨by simpa using hlt, by omega, ?_, ?_⟩
            · simpa [hbe] using hbd
            · exact head?_mem hh
          · exact ih _ _ _ hrec
      · rw [if_neg hbd] at hmem
        exact ih _ _ _ hmem

theorem scanMatches_mem {g1 : Pat} {bs : List Nat} {s e : Nat}
    (h : (s, e) ∈ scanMatches g1 bs) :
    ∃ hb : s - 1 < bs.length,
      1 ≤ s ∧ boundaryByte bs[s - 1] = true ∧ e ∈ g1 bs s :=
  scanGo_mem _ _ s e h

/-! ### Facts about every mention / URL match -/

/-- Bundle of facts about every span parse_mentions produces. -/
theorem mention_span_facts {text : String} {m : MentionSpan}
    (hm : m ∈ parse_mentions text) :
    ∃ hb : m.start - 1 < (textBytes text).length,
      1 ≤ m.start ∧
      boundaryByte (textBytes text)[m.start - 1] = true ∧
      m.start < m.stop ∧
      m.stop ≤ (textBytes text).length ∧
      (∃ hs : m.start < (textBytes text).length, (textBytes text)[m.start] = 64) ∧
      (∀ i (h : i < (textBytes text).length), m.start ≤ i → i < m.stop →
        mentionGroupB (textBytes text)[i] = true) ∧
      m.handle = decodeOr (byteSlice (textBytes text) (m.start + 1) m.stop) := by
  unfold parse_mentions at hm
  obtain ⟨se, hse, heq⟩ := List.mem_map.mp hm
  obtain ⟨s, e⟩ := se
  obtain ⟨hb, h1, hbd, hg1⟩ := scanMatches_mem hse
  subst heq
  obtain ⟨hlt, h64, hse1⟩ := mentionG1_mem hg1
  obtain ⟨-, helen, hchar⟩ :=
    sound_mentionG1 (textBytes text) s (by omega) e hg1
  dsimp only
  exact ⟨hb, h1, hbd, by omega, helen, ⟨hlt, h64⟩, hchar, rfl⟩

/-- Bundle of facts about every span parse_urls produces. -/
theorem url_span_facts {text : String} {u : UrlSpan}
    (hu : u ∈ parse_urls text) :
    ∃ hb : u.start - 1 < (textBytes text).length,
      1 ≤ u.start ∧
      boundaryByte (textBytes text)[u.start - 1] = true ∧
      u.start < u.stop ∧
      u.stop ≤ (textBytes text).length := by
  unfold parse_urls at hu
  obtain ⟨se, hse, heq⟩ := List.mem_map.mp hu
  obtain ⟨s, e⟩ := se
  obtain ⟨hb, h1, hbd, hg1⟩ := scanMatches_mem hse
  subst heq
  have hstrict := urlG1_strict hg1
  obtain ⟨-, helen, -⟩ := sound_urlG1 (textBytes text) s (by omega) e hg1
  dsimp only
  exact ⟨hb, h1, hbd, by omega, helen⟩

/-! ### Decoding the matched slice -/

theorem mentionGroupB_lt128 (b : Nat) (h : mentionGroupB b = true) : b < 128 := by
  simp only [mentionGroupB, isAlnumB, isAlphaB, isDigitB, Bool.or_eq_true,
    Bool.and_eq_true, decide_eq_true_eq, beq_iff_eq] at h
  omega

theorem utf8DecodeGo_ascii :
    ∀ (bs : List Nat) (fuel : Nat), bs.length ≤ fuel → (∀ b ∈ bs, b < 128) →
      utf8DecodeGo fuel bs = some (bs.map Char.ofNat) := by
  intro bs
  induction bs with
  | nil =>
    intro fuel _ _
    cases fuel <;> rfl
  | cons b rest ih =>
    intro fuel hfuel h
    have hb : b < 128 := h b (List.mem_cons_self b rest)
    cases fuel with
    | zero => simp at hfuel
    | succ fuel =>
      have hr := ih fuel (by simpa using hfuel) (fun x hx => h x (List.mem_cons_of_mem _ hx))
      have hone : utf8DecodeOne b rest = some (b, rest) := by
        unfold utf8DecodeOne
        rw [if_pos hb]
      simp only [utf8DecodeGo, hone, hr]
      rfl

theorem utf8Decode_ascii (bs : List Nat) (h : ∀ b ∈ bs, b < 128) :
    utf8Decode bs = some (bs.map Char.ofNat) :=
  utf8DecodeGo_ascii bs bs.length (Nat.le_refl _) h

theorem mem_byteSlice {bs : List Nat} {s e b : Nat} (h : b ∈ byteSlice bs s e) :
    ∃ i, ∃ hi : i < bs.length, s ≤ i ∧ i < e ∧ bs[i] = b := by
  unfold byteSlice at h
  obtain ⟨j, hj, hget⟩ := List.getElem_of_mem h
  have hjlen : j < (bs.drop s).length := by
    have := List.length_take (e - s) (bs.drop s)
    omega
  have hjes : j < e - s := by
    have := List.length_take (e - s) (bs.drop s)
    omega
  rw [List.getElem_take] at hget
  have hsj : s + j < bs.length := by
    have := List.length_drop s bs
    omega
  have hdrop : bs[s + j] = (bs.drop s)[j] := List.getElem_drop' bs hsj
  exact ⟨s + j, hsj, by omega, by omega, by rw [hdrop]; exact hget⟩

theorem byteSlice_cons {bs : List Nat} {s e : Nat} (hs : s < bs.length)
    (hse : s < e) :
    byteSlice bs s e = bs[s] :: byteSlice bs (s + 1) e := by
  unfold byteSlice
  rw [List.drop_eq_getElem_cons hs]
  have hes : e - s = (e - (s + 1)) + 1 := by omega
  rw [hes, List.take_succ_cons]

/-! ### The mention loop of parse_facets -/

/-- The accumulator form of the mention loop equals the scan-order
recursion with the accumulator prepended. -/
theorem resolveLoop_append (resolve : String → Except String Response) :
    ∀ (ms : List MentionSpan) (acc : List Facet),
      resolveLoop resolve ms acc =
        (mentionFacetsInScanOrder resolve ms).map (fun fs => acc ++ fs) := by
  intro ms
  induction ms with
  | nil =>
    intro acc
    simp [resolveLoop, mentionFacetsInScanOrder, Except.map]
  | cons m rest ih =>
    intro acc
    simp only [resolveLoop, mentionFacetsInScanOrder]
    cases hres : resolve m.handle with
    | error e => rfl
    | ok resp =>
      dsimp only
      by_cases hst : (resp.status == 400) = true
      · rw [if_pos hst, if_pos hst]
        exact ih acc
      · rw [if_neg hst, if_neg hst]
        cases hdid : resp.didField with
        | none => rfl
        | some did =>
          dsimp only
          rw [ih (acc ++ [mentionFacet m did])]
          cases hspec : mentionFacetsInScanOrder resolve rest with
          | error e => rfl
          | ok fs =>
            simp [Except.map]

/-- If every mention resolves with status 400, the mention loop adds
nothing. -/
theorem resolveLoop_all400 (resolve : String → Except String Response) :
    ∀ (ms : List MentionSpan) (acc : List Facet),
      (∀ m ∈ ms, ∃ r, resolve m.handle = Except.ok r ∧ r.status = 400) →
      resolveLoop resolve ms acc = Except.ok acc := by
  intro ms
  induction ms with
  | nil => intro acc _; rfl
  | cons m rest ih =>
    intro acc h
    obtain ⟨r, hres, hst⟩ := h m (List.mem_cons_self m rest)
    simp only [resolveLoop, hres]
    rw [if_pos (by simp [hst])]
    exact ih acc (fun x hx => h x (List.mem_cons_of_mem _ hx))

/-- If some mention hits a non-400 failure, the mention loop returns an
error. -/
theorem resolveLoop_fails (resolve : String → Except String Response) :
    ∀ (ms : List MentionSpan) (acc : List Facet),
      (∃ m ∈ ms, resolutionFails resolve m.handle) →
      ∃ e, resolveLoop resolve ms acc = Except.error e := by
  intro ms
  induction ms with
  | nil =>
    intro acc h
    obtain ⟨m, hm, -⟩ := h
    exact absurd hm (List.not_mem_nil m)
  | cons m0 rest ih =>
    intro acc h
    obtain ⟨m, hm, hfail⟩ := h
    cases hres : resolve m0.handle with
    | error e =>
      exact ⟨FacetError.transport e, by simp only [resolveLoop, hres]⟩
    | ok resp =>
      by_cases hst : (resp.status == 400) = true
      · have hmrest : m ∈ rest := by
          rcases List.mem_cons.mp hm with rfl | hr
          · unfold resolutionFails at hfail
            rw [hres] at hfail
            dsimp only at hfail
            exact absurd (by simpa using hst) hfail.1
          · exact hr
        obtain ⟨e, he⟩ := ih acc ⟨m, hmrest, hfail⟩
        refine ⟨e, ?_⟩
        simp only [resolveLoop, hres]
        rw [if_pos hst]
        exact he
      · cases hdid : resp.didField with
        | none =>
          refine ⟨FacetError.noDid, ?_⟩
          simp only [resolveLoop, hres, hdid]
          rw [if_neg hst]
        | some did =>
          have hmrest : m ∈ rest := by
            rcases List.mem_cons.mp hm with rfl | hr
            · unfold resolutionFails at hfail
              rw [hres] at hfail
              dsimp only at hfail
              rw [hdid] at hfail
              exact absurd hfail.2 (by simp)
            · exact hr
          obtain ⟨e, he⟩ := ih (acc ++ [mentionFacet m0 did]) ⟨m, hmrest, hfail⟩
          refine ⟨e, ?_⟩
          simp only [resolveLoop, hres, hdid]
          rw [if_neg hst]
          exact he

/-- The mention loop only ever appends singleton-feature facets. -/
theorem resolveLoop_features (resolve : String → Except String Response) :
    ∀ (ms : List MentionSpan) (acc : List Facet) (out : List Facet),
      (∀ f ∈ acc, f.features.length = 1) →
      resolveLoop resolve ms acc = Except.ok out →
      ∀ f ∈ out, f.features.length = 1 := by
  intro ms
  induction ms with
  | nil =>
    intro acc out hacc hout
    have : acc = out := by
      simpa [resolveLoop] using hout
    subst this
    exact hacc
  | cons m rest ih =>
    intro acc out hacc hout
    simp only [resolveLoop] at hout
    cases hres : resolve m.handle with
    | error e => rw [hres] at hout; exact absurd hout (by simp)
    | ok resp =>
      rw [hres] at hout
      dsimp only at hout
      by_cases hst : (resp.status == 400) = true
      · rw [if_pos hst] at hout
        exact ih acc out hacc hout
      · rw [if_neg hst] at hout
        cases hdid : resp.didField with
        | none => rw [hdid] at hout; exact absurd hout (by simp)
        | some did =>
          rw [hdid] at hout
          refine ih (acc ++ [mentionFacet m did]) out ?_ hout
          intro f hf
          rcases List.mem_append.mp hf with hfa | hfm
          · exact hacc f hfa
          · have : f = mentionFacet m did := List.mem_singleton.mp hfm
            subst this
            rfl

/-! ### The image loop -/

/-- With the alt list present, an oversized image at index i stops the
loop with the size error after exactly the first i uploads. -/
theorem imageLoopGo_oversize (upload : List Nat → Nat) (alts : List String) :
    ∀ (imgs : List (List Nat)) (idx i : Nat) (hi : i < imgs.length),
      sizeLimitExceeded imgs[i].length = true →
      (∀ j (hj : j < imgs.length), j < i → sizeLimitExceeded imgs[j].length = false) →
      (imageLoopGo upload (some alts) idx imgs).uploaded = imgs.take i ∧
      (imageLoopGo upload (some alts) idx imgs).error =
        some (PostError.imageTooLarge imgs[i].length) := by
  intro imgs
  induction imgs with
  | nil =>
    intro idx i hi
    simp at hi
  | cons img rest ih =>
    intro idx i hi hbig hsmall
    cases i with
    | zero =>
      simp only [List.getElem_cons_zero] at hbig
      simp [imageLoopGo, hbig]
    | succ i2 =>
      have hok : sizeLimitExceeded img.length = false :=
        hsmall 0 (by simp) (by omega)
      simp only [List.getElem_cons_succ] at hbig
      have hi2 : i2 < rest.length := by
        simpa using hi
      have hsmall2 : ∀ j (hj : j < rest.length), j < i2 →
          sizeLimitExceeded rest[j].length = false := by
        intro j hj hji
        have := hsmall (j + 1) (by simpa using hj) (by omega)
        simpa using this
      obtain ⟨hup, herr⟩ := ih (idx + 1) i2 hi2 hbig hsmall2
      simp only [imageLoopGo, hok, Bool.false_eq_true, if_false, altForIdx]
      exact ⟨by simp [hup], by simp [herr]⟩

/-! ## Claim C8 -/

/-- Claim C8: on the text "hello @alice.bsky.social and check
https://example.com/page." the mention scanner returns exactly one
match, with handle field "alice.bsky.social", and the URL scanner
returns exactly one match, with url field "https://example.com/page"
(the trailing period excluded). -/
theorem c8_example_scan :
    (parse_mentions "hello @alice.bsky.social and check https://example.com/page.").map
        MentionSpan.handle = ["alice.bsky.social"] ∧
    (parse_urls "hello @alice.bsky.social and check https://example.com/page.").map
        UrlSpan.url = ["https://example.com/page"] := by
  decide

/-! ## Claim C2 -/

/-- Claim C2 counterexample: a text that begins at offset 0 with a
syntactically valid mention (respectively URL) yields NO match: the
leading [$|\W] of both regexes is a character class that must consume a
preceding byte, not a start-of-text alternative. -/
theorem c2_counterexample :
    parse_mentions "@alice.bsky.social" = [] ∧
    parse_urls "https://example.com" = [] := by
  decide

/-- Claim C2 (amended): every mention and URL match starts at byte offset at
least 1, and the byte immediately before it belongs to the class
[$|\W] (dollar, pipe, or non-word byte).  Start of text is NOT an
accepted boundary, so a valid mention or URL at offset 0 is never
matched. -/
theorem c2_boundary_byte_required (text : String) :
    (∀ m ∈ parse_mentions text, 1 ≤ m.start ∧
      ∃ h : m.start - 1 < (textBytes text).length,
        boundaryByte (textBytes text)[m.start - 1] = true) ∧
    (∀ u ∈ parse_urls text, 1 ≤ u.start ∧
      ∃ h : u.start - 1 < (textBytes text).length,
        boundaryByte (textBytes text)[u.start - 1] = true) := by
  constructor
  · intro m hm
    obtain ⟨hb, h1, hbd, -⟩ := mention_span_facts hm
    exact ⟨h1, hb, hbd⟩
  · intro u hu
    obtain ⟨hb, h1, hbd, -⟩ := url_span_facts hu
    exact ⟨h1, hb, hbd⟩

/-- Claim C2 witness: the amended statement applied to the concrete text
"x @a.bc" and its single mention match. -/
theorem c2_witness :
    1 ≤ (2 : Nat) ∧
    ∃ h : 2 - 1 < (textBytes "x @a.bc").length,
      boundaryByte (textBytes "x @a.bc")[2 - 1] = true :=
  (c2_boundary_byte_required "x @a.bc").1 ⟨2, 7, "a.bc"⟩ (by decide)

/-! ## Claim C1 -/

/-- Claim C1 counterexample: on "x @a.bc" the mention scanner reports the
span (2, 7).  Slicing the UTF-8 bytes with [2:7] and decoding yields
"@a.bc", not the handle "a.bc": the recorded span includes the sigil. -/
theorem c1_counterexample :
    (⟨2, 7, "a.bc"⟩ : MentionSpan) ∈ parse_mentions "x @a.bc" ∧
    utf8Decode (byteSlice (textBytes "x @a.bc") 2 7) ≠
      some (String.data "a.bc") := by
  decide

/-- Claim C1 (amended): for every text, slicing the UTF-8 byte encoding of
the text with [start:end] of any mention match and decoding yields the
sigil followed by the handle field, i.e. "@" ++ handle: the recorded
span is the whole group @handle, sigil included. -/
theorem c1_mention_slice_decodes (text : String) (m : MentionSpan)
    (hm : m ∈ parse_mentions text) :
    utf8Decode (byteSlice (textBytes text) m.start m.stop) =
      some ('@' :: m.handle.data) := by
  obtain ⟨hb, h1, hbd, hlt, hstop, ⟨hs, h64⟩, hchar, hhandle⟩ := mention_span_facts hm
  have hascii : ∀ b ∈ byteSlice (textBytes text) (m.start + 1) m.stop, b < 128 := by
    intro b hbmem
    obtain ⟨i, hi, hle, hlt2, hbi⟩ := mem_byteSlice hbmem
    rw [← hbi]
    exact mentionGroupB_lt128 _ (hchar i hi (by omega) hlt2)
  have hdata : m.handle.data = (byteSlice (textBytes text) (m.start + 1) m.stop).map Char.ofNat := by
    rw [hhandle]
    unfold decodeOr
    rw [utf8Decode_ascii _ hascii]
  have hall : ∀ b ∈ byteSlice (textBytes text) m.start m.stop, b < 128 := by
    rw [byteSlice_cons hs hlt]
    intro b hbmem
    rcases List.mem_cons.mp hbmem with rfl | hrest
    · rw [h64]
      omega
    · exact hascii b hrest
  rw [utf8Decode_ascii _ hall, byteSlice_cons hs hlt, List.map_cons, h64, hdata]

/-- Claim C1 witness: the amended statement applied at "x @a.bc". -/
theorem c1_witness :
    utf8Decode (byteSlice (textBytes "x @a.bc") 2 7) =
      some ('@' :: String.data "a.bc") :=
  c1_mention_slice_decodes "x @a.bc" ⟨2, 7, "a.bc"⟩ (by decide)

/-! ## Claim C9 -/

/-- Claim C9: every span produced by the mention scanner and by the URL
scanner is a non-empty half-open byte range inside the encoded text:
0 ≤ start < stop ≤ length of the UTF-8 encoding (start is a Nat, so
0 ≤ start holds by type). -/
theorem c9_spans_in_bounds (text : String) :
    (∀ m ∈ parse_mentions text,
      m.start < m.stop ∧ m.stop ≤ (textBytes text).length) ∧
    (∀ u ∈ parse_urls text,
      u.start < u.stop ∧ u.stop ≤ (textBytes text).length) := by
  constructor
  · intro m hm
    obtain ⟨-, -, -, hlt, hstop, -⟩ := mention_span_facts hm
    exact ⟨hlt, hstop⟩
  · intro u hu
    obtain ⟨-, -, -, hlt, hstop⟩ := url_span_facts hu
    exact ⟨hlt, hstop⟩

/-- Claim C9 witness: the bounds at the concrete URL match of
"hi @a.bc https://ex.am". -/
theorem c9_witness :
    (9 : Nat) < 22 ∧ 22 ≤ (textBytes "hi @a.bc https://ex.am").length :=
  (c9_spans_in_bounds "hi @a.bc https://ex.am").2 ⟨9, 22, "https://ex.am"⟩ (by decide)

/-! ## Claim C4 -/

/-- Claim C4: when the resolver reports the mention handles as unresolvable
(HTTP 400, the not-found / bad-request condition), parse_facets returns
successfully - no error is raised - with a facet list that contains
zero mention facets and exactly the url facets of the text, in order. -/
theorem c4_unresolvable_mention_skipped (resolve : String → Except String Response)
    (text : String)
    (h400 : ∀ m ∈ parse_mentions text,
      ∃ r, resolve m.handle = Except.ok r ∧ r.status = 400) :
    parse_facets resolve text = Except.ok ((parse_urls text).map linkFacet) := by
  unfold parse_facets
  rw [resolveLoop_all400 resolve _ [] h400]
  simp

/-- Claim C4 witness: with the always-400 resolver on a text holding one
mention and one URL, the result is exactly the link facet. -/
theorem c4_witness :
    parse_facets always400 "hi @a.bc https://ex.am" =
      Except.ok ((parse_urls "hi @a.bc https://ex.am").map linkFacet) :=
  c4_unresolvable_mention_skipped always400 "hi @a.bc https://ex.am"
    (fun _ _ => ⟨{ status := 400, didField := none }, rfl, rfl⟩)

/-! ## Claim C5 -/

/-- Claim C5: whenever parse_facets succeeds, the facet list is exactly the
successfully resolved mention facets in their original scan order,
followed by the url facets in their original scan order - a two-phase
concatenation, never a global re-sort by byte offset. -/
theorem c5_two_phase_order (resolve : String → Except String Response)
    (text : String) (fs : List Facet)
    (h : parse_facets resolve text = Except.ok fs) :
    ∃ mf, mentionFacetsInScanOrder resolve (parse_mentions text) = Except.ok mf ∧
      fs = mf ++ (parse_urls text).map linkFacet := by
  unfold parse_facets at h
  rw [resolveLoop_append resolve _ []] at h
  cases hspec : mentionFacetsInScanOrder resolve (parse_mentions text) with
  | error e =>
    rw [hspec] at h
    exact absurd h (by simp [Except.map])
  | ok mf =>
    rw [hspec] at h
    simp only [Except.map, List.nil_append] at h
    refine ⟨mf, rfl, ?_⟩
    exact (Except.ok.inj h).symm

/-- Claim C5 witness: with the all-resolving resolver on a text holding one
mention and one URL, the mention facet (span 3-8) precedes the link
facet (span 9-22). -/
theorem c5_witness :
    ∃ mf, mentionFacetsInScanOrder allOk
        (parse_mentions "hi @a.bc https://ex.am") = Except.ok mf ∧
      ([{ byteStart := 3, byteEnd := 8, features := [Feature.mention "did:plc:z"] },
        { byteStart := 9, byteEnd := 22, features := [Feature.link "https://ex.am"] }] :
          List Facet) =
        mf ++ (parse_urls "hi @a.bc https://ex.am").map linkFacet :=
  c5_two_phase_order allOk "hi @a.bc https://ex.am"
    [{ byteStart := 3, byteEnd := 8, features := [Feature.mention "did:plc:z"] },
     { byteStart := 9, byteEnd := 22, features := [Feature.link "https://ex.am"] }]
    (by rfl)

/-! ## Claim C7 -/

/-- Claim C7: if resolving some mention fails with a condition other than the
not-found / bad-request one - the network call raising, or a non-400
response without a did field - parse_facets propagates a failure
instead of returning a partial facet list. -/
theorem c7_other_failure_propagates (resolve : String → Except String Response)
    (text : String)
    (h : ∃ m ∈ parse_mentions text, resolutionFails resolve m.handle) :
    ∃ e, parse_facets resolve text = Except.error e := by
  obtain ⟨e, he⟩ := resolveLoop_fails resolve (parse_mentions text) [] h
  refine ⟨e, ?_⟩
  unfold parse_facets
  rw [he]

/-- Claim C7 witness: with a resolver whose network call always fails,
parse_facets on a text with a mention returns an error. -/
theorem c7_witness :
    ∃ e, parse_facets errResolver "hi @a.bc https://ex.am" = Except.error e :=
  c7_other_failure_propagates errResolver "hi @a.bc https://ex.am"
    ⟨⟨3, 8, "a.bc"⟩, by decide, trivial⟩

/-! ## Claim C10 -/

/-- Claim C10: every facet parse_facets returns carries exactly one feature:
a single mention feature or a single link feature, never zero or
several. -/
theorem c10_single_feature (resolve : String → Except String Response)
    (text : String) (fs : List Facet)
    (h : parse_facets resolve text = Except.ok fs) :
    ∀ f ∈ fs, f.features.length = 1 := by
  unfold parse_facets at h
  cases hloop : resolveLoop resolve (parse_mentions text) [] with
  | error e =>
    rw [hloop] at h
    exact absurd h (by simp)
  | ok mf =>
    rw [hloop] at h
    dsimp only at h
    have hfs : fs = mf ++ (parse_urls text).map linkFacet := (Except.ok.inj h).symm
    subst hfs
    intro f hf
    rcases List.mem_append.mp hf with hfa | hfm
    · exact resolveLoop_features resolve _ [] mf (by simp) hloop f hfa
    · obtain ⟨u, hu, rfl⟩ := List.mem_map.mp hfm
      rfl

/-- Claim C10 witness: the mention facet returned for "hi @a.bc
https://ex.am" under the all-resolving resolver has exactly one
feature. -/
theorem c10_witness :
    ({ byteStart := 3, byteEnd := 8,
       features := [Feature.mention "did:plc:z"] } : Facet).features.length = 1 :=
  c10_single_feature allOk "hi @a.bc https://ex.am"
    [{ byteStart := 3, byteEnd := 8, features := [Feature.mention "did:plc:z"] },
     { byteStart := 9, byteEnd := 22, features := [Feature.link "https://ex.am"] }]
    (by rfl) _ (by decide)

/-! ## Claim C3 -/

/-- Claim C3: the pairing expression is right when an alt list exists -
i-th alt with i-th image, missing entries defaulting to "" - but with
no --alt flag at all args.alt is None, and the append step evaluates
len(None), raising TypeError after the image was already uploaded,
instead of defaulting the alt text to the empty string. -/
theorem c3_alt_none_crashes :
    imageLoop (fun _ => 7) none [[1]] =
      { embeds := [], uploaded := [[1]],
        error := some PostError.typeErrorNoneLen } ∧
    imageLoop (fun _ => 7) (some ["first"]) [[1], [2]] =
      { embeds := [{ alt := "first", image := 7 }, { alt := "", image := 7 }],
        uploaded := [[1], [2]], error := none } := by
  decide

/-! ## Claim C6 -/

/-- Claim C6: if the i-th image payload exceeds 1,000,000 bytes and the
earlier ones do not, the loop stops with the local size error exactly
after uploading the first i images: the oversized image is never
uploaded, the earlier uploads are not rolled back, and a payload of
exactly 1,000,000 bytes passes the check. -/
theorem c6_image_size_check (upload : List Nat → Nat) (alts : List String)
    (imgs : List (List Nat)) (i : Nat) (hi : i < imgs.length)
    (hbig : sizeLimitExceeded imgs[i].length = true)
    (hsmall : ∀ j (hj : j < imgs.length), j < i →
      sizeLimitExceeded imgs[j].length = false) :
    (imageLoop upload (some alts) imgs).uploaded = imgs.take i ∧
    (imageLoop upload (some alts) imgs).error =
      some (PostError.imageTooLarge imgs[i].length) ∧
    sizeLimitExceeded 1000000 = false := by
  obtain ⟨h1, h2⟩ := imageLoopGo_oversize upload alts imgs 0 i hi hbig hsmall
  exact ⟨h1, h2, by decide⟩

/-- Claim C6 witness: a 1,000,001-byte second image aborts the loop with the
size error; only the first image was uploaded. -/
theorem c6_witness :
    (imageLoop (fun _ => 0) (some ["a"]) [[9], List.replicate 1000001 0]).uploaded =
      [[9]] ∧
    (imageLoop (fun _ => 0) (some ["a"]) [[9], List.replicate 1000001 0]).error =
      some (PostError.imageTooLarge 1000001) ∧
    sizeLimitExceeded 1000000 = false := by
  have hi : 1 < ([[9], List.replicate 1000001 0] : List (List Nat)).length := by
    show 1 < 2
    decide
  have hbig : sizeLimitExceeded ([[9], List.replicate 1000001 0] :
      List (List Nat))[1].length = true := by
    show sizeLimitExceeded (List.replicate 1000001 (0 : Nat)).length = true
    rw [List.length_replicate]
    decide
  have hsmall : ∀ j (hj : j < ([[9], List.replicate 1000001 0] :
      List (List Nat)).length), j < 1 →
      sizeLimitExceeded ([[9], List.replicate 1000001 0] :
        List (List Nat))[j].length = false := by
    intro j hj hj1
    have hj0 : j = 0 := by omega
    subst hj0
    show sizeLimitExceeded ([9] : List Nat).length = false
    decide
  have hlen : ([[9], List.replicate 1000001 0] : List (List Nat))[1].length = 1000001 := by
    show (List.replicate 1000001 (0 : Nat)).length = 1000001
    rw [List.length_replicate]
  obtain ⟨h1, h2, h3⟩ := c6_image_size_check (fun _ => 0) ["a"]
    [[9], List.replicate 1000001 0] 1 hi hbig hsmall
  refine ⟨?_, ?_, h3⟩
  · rw [h1]
    rfl
  · rw [h2, hlen]

end Bskypost
